import Mathlib

/-!
Verification of the go-chaintracks header chain engine.

Shallow embedding of the in-memory chain state and its operations, translated
from the Go source:
  pkg/chaintracks/chainmanager.go, pkg/chaintracks/p2p.go,
  pkg/chaintracks/cdn_loader.go, cmd/server/api.go,
  and the companion sources (the header store, the chain manager built on it,
  and the persistence layer variant that truncates on reorg).

Modelling conventions:
  - 32-byte hashes are abstracted as natural numbers; the Go zero value
    chainhash.Hash{} is `zeroHash = 0`.
  - Go maps (hash -> *BlockHeader) are modelled as functions
    `Hash -> Option BlockHeader`; insertion and pointwise deletion translate
    the map operations faithfully (map iteration in pruneOrphans applies a
    pointwise predicate, so the function update is exact).
  - big.Int chain work is a `Nat` (it is a sum of non-negative works).
  - uint32 heights are `Nat`; where 32-bit wraparound matters (the
    cache-control subtraction in api.go) the arithmetic is done explicitly
    modulo 2^32.
  - fallible Go functions (returning error) become `Option`-valued, or return
    an explicit error code where the identity of the error matters.
  - filesystem contents are modelled per file index as partial byte maps
    `Nat -> Option Nat`.
-/

namespace Chaintracks

/-- 32-byte block hash, abstracted. -/
abbrev Hash := Nat

/-- The Go zero value `chainhash.Hash{}` used to pad `byHeight`. -/
def zeroHash : Hash := 0

/-- A parsed 80-byte header (the fields the SDK's block.Header exposes),
together with its SDK-computed hash and its original 80 raw bytes
(`Header.Bytes()` in the source re-serializes to exactly these). -/
structure RawHeader where
  version : Nat
  prevHash : Hash
  merkleRoot : Nat
  timestamp : Nat
  bits : Nat
  nonce : Nat
  hash : Hash
  bytes : List Nat
  deriving Repr, DecidableEq

/-- BlockHeader from types.go: the parsed header annotated with height and
cumulative chain work. -/
structure BlockHeader where
  header : RawHeader
  height : Nat
  chainWork : Nat
  deriving Repr, DecidableEq

/-- The in-memory chain state shared by both source variants: the dense
best-chain index `byHeight`, the all-headers map `byHash`, and the tip. -/
structure ChainState where
  byHeight : List Hash
  byHash : Hash → Option BlockHeader
  tip : Option BlockHeader

/-- A fresh state: `make([]chainhash.Hash, 0)`, empty map, nil tip. -/
def emptyState : ChainState := ⟨[], fun _ => none, none⟩

/-- Modelled from the spec: `CompactToBig` is not under src/ (only its tests
and callers are). The spec defines the compact 32-bit difficulty decoding as
{exponent: high byte, mantissa: low 24 bits} with
`target = mantissa << (8*(exponent-3))` when exponent ≥ 3, else
`mantissa >> (8*(3-exponent))`. -/
def CompactToBig (compact : Nat) : Nat :=
  let exponent := compact / 2 ^ 24
  let mantissa := compact % 2 ^ 24
  if 3 ≤ exponent then mantissa * 2 ^ (8 * (exponent - 3))
  else mantissa / 2 ^ (8 * (3 - exponent))

/-- Modelled from the spec: `CalculateWork` is not under src/. The spec
defines the work contributed by a block of difficulty `bits` as
`floor(2^256 / (target + 1))`. -/
def CalculateWork (bits : Nat) : Nat :=
  2 ^ 256 / (CompactToBig bits + 1)

/-- The Go inline loop `for uint32(len(byHeight)) <= header.Height
{ byHeight = append(byHeight, chainhash.Hash{}) }`: pad with zero hashes
until the slice covers index `height`. -/
def growByHeight (l : List Hash) (height : Nat) : List Hash :=
  l ++ List.replicate (height + 1 - l.length) zeroHash

namespace ChainManager

/-- chainmanager.go AddHeader: insert into byHash only; no duplicate check,
tip and byHeight untouched, always returns nil error. -/
def AddHeader (st : ChainState) (bh : BlockHeader) : ChainState :=
  { st with byHash := fun h => if h = bh.header.hash then some bh else st.byHash h }

/-- chainmanager.go GetHeaderByHeight: bounds check against len(byHeight),
then the byHash lookup of the indexed hash; either miss is ErrHeaderNotFound
(`none`). -/
def GetHeaderByHeight (st : ChainState) (height : Nat) : Option BlockHeader :=
  match st.byHeight[height]? with
  | none => none
  | some h => st.byHash h

/-- chainmanager.go GetHeight: 0 when the tip is nil. -/
def GetHeight (st : ChainState) : Nat :=
  match st.tip with
  | none => 0
  | some t => t.height

/-- chainmanager.go pruneOrphans: with a nil tip do nothing; otherwise
`pruneHeight = tip.Height - 100` when `tip.Height > 100` else 0, and delete
every byHash entry that is not the best-chain member at its height
(`header.Height < len(byHeight) && byHeight[header.Height] == hash`) and has
height below pruneHeight. -/
def pruneOrphans (st : ChainState) : ChainState :=
  match st.tip with
  | none => st
  | some t =>
    let pruneHeight := if 100 < t.height then t.height - 100 else 0
    { st with byHash := fun h =>
        match st.byHash h with
        | none => none
        | some hdr =>
          if st.byHeight[hdr.height]? = some h then some hdr
          else if hdr.height < pruneHeight then none
          else some hdr }

/-- One iteration of the SetChainTip branch loop: pad byHeight up to the
record's height, write `byHeight[h] = hash`, insert into byHash. -/
def applyBranchHeader (st : ChainState) (bh : BlockHeader) : ChainState :=
  { st with
      byHeight := (growByHeight st.byHeight bh.height).set bh.height bh.header.hash
      byHash := fun h => if h = bh.header.hash then some bh else st.byHash h }

/-- SetChainTip (the truncating persistence-layer variant): empty branch is a
no-op; otherwise write every branch record into byHeight/byHash, truncate
byHeight to `last.Height + 1` when it extends past the new tip, set the tip
to the branch's last element, and prune orphans. The file writes that follow
in the source are modelled separately (`writeHeadersToFiles`,
`updateMetadataForTip`). -/
def SetChainTip (st : ChainState) (branch : List BlockHeader) : ChainState :=
  match branch.getLast? with
  | none => st
  | some last =>
    let st1 := branch.foldl applyBranchHeader st
    let byH := if last.height + 1 < st1.byHeight.length
               then st1.byHeight.take (last.height + 1)
               else st1.byHeight
    pruneOrphans { byHeight := byH, byHash := st1.byHash, tip := some last }

/-- p2p.go addBlockToChain: look up the parent (error when absent), compute
chainWork = parent.ChainWork + CalculateWork(bits), build the record with
the *claimed* height, always AddHeader it into byHash first, then make it
the tip via SetChainTip exactly when the tip is nil or its chain work is
strictly greater (`Cmp > 0`). -/
def addBlockToChain (st : ChainState) (header : RawHeader) (height : Nat) :
    Option ChainState :=
  match st.byHash header.prevHash with
  | none => none
  | some parent =>
    let work := CalculateWork header.bits
    let chainWork := parent.chainWork + work
    let bh : BlockHeader := ⟨header, height, chainWork⟩
    let st1 := AddHeader st bh
    match st1.tip with
    | none => some (SetChainTip st1 [bh])
    | some t =>
      if t.chainWork < chainWork then some (SetChainTip st1 [bh]) else some st1

end ChainManager

namespace HeaderStore

/-- store HasHeader: membership in byHash. -/
def HasHeader (st : ChainState) (h : Hash) : Bool :=
  (st.byHash h).isSome

/-- store AddHeader (the height-based variant): reject an existing hash with
ErrDuplicateHeader (`none`); otherwise insert into byHash, pad byHeight with
zero hashes up to the record's height, write `byHeight[h] = hash`, and
replace the tip whenever the tip is nil or the new height is strictly
greater — chain work is never consulted. -/
def AddHeader (st : ChainState) (bh : BlockHeader) : Option ChainState :=
  if (st.byHash bh.header.hash).isSome then none
  else some
    { byHeight := (growByHeight st.byHeight bh.height).set bh.height bh.header.hash
      byHash := fun h => if h = bh.header.hash then some bh else st.byHash h
      tip := match st.tip with
             | none => some bh
             | some t => if t.height < bh.height then some bh else some t }

/-- store AddOrphan: insert into byHash only. -/
def AddOrphan (st : ChainState) (bh : BlockHeader) : ChainState :=
  { st with byHash := fun h => if h = bh.header.hash then some bh else st.byHash h }

/-- store PruneOrphans(maxDepth): same deletion rule as the manager's
pruneOrphans with the retention depth as a parameter. -/
def PruneOrphans (st : ChainState) (maxDepth : Nat) : ChainState :=
  match st.tip with
  | none => st
  | some t =>
    let pruneHeight := if maxDepth < t.height then t.height - maxDepth else 0
    { st with byHash := fun h =>
        match st.byHash h with
        | none => none
        | some hdr =>
          if st.byHeight[hdr.height]? = some h then some hdr
          else if hdr.height < pruneHeight then none
          else some hdr }

end HeaderStore

/-- The error a ProcessHeader call can return. -/
inductive ProcErr where
  | duplicateHeader
  | addFailed
  deriving Repr, DecidableEq

namespace ChainManager

/-- ProcessHeader (the store-based manager): return ErrDuplicateHeader when
the hash is already known; with an unknown parent store the header as an
orphan with height 0 and chain work 0 and return nil; otherwise annotate
with height = parent.Height + 1 and chainWork = parent.ChainWork + work and
add through the store (whose duplicate error, unreachable here, is wrapped
and surfaced). Returns the error (if any) and the resulting state. -/
def ProcessHeader (st : ChainState) (header : RawHeader) :
    Option ProcErr × ChainState :=
  if HeaderStore.HasHeader st header.hash then (some .duplicateHeader, st)
  else
    match st.byHash header.prevHash with
    | none => (none, HeaderStore.AddOrphan st ⟨header, 0, 0⟩)
    | some prev =>
      let height := prev.height + 1
      let chainWork := prev.chainWork + CalculateWork header.bits
      match HeaderStore.AddHeader st ⟨header, height, chainWork⟩ with
      | none => (some .addFailed, st)
      | some st1 => (none, st1)

end ChainManager

/-! ### Persistence layer -/

/-- A manifest file entry (CDNFileEntry). The fileName is determined by the
entry's position in the manifest, and the string-typed fileHash / sourceUrl /
chain fields carry no information the engine reads, so they are omitted;
hex-encoded chain-work strings are kept as their numeric values. -/
structure FileEntry where
  count : Nat
  firstHeight : Nat
  lastChainWork : Nat
  lastHash : Hash
  prevChainWork : Nat
  prevHash : Hash
  deriving Repr, DecidableEq

/-- The entry appended by updateMetadataForTip for a file index that has no
manifest entry yet: count 0, firstHeight = i*100000, zeroed tip metadata. -/
def mkEmptyFileEntry (i : Nat) : FileEntry :=
  ⟨0, i * 100000, 0, 0, 0, 0⟩

namespace ChainManager

/-- The overwrite of the tip's manifest entry in updateMetadataForTip:
count = tip.Height%100000 + 1, lastChainWork, lastHash, and — when
tip.Height > 0 and the header below the tip resolves — prevChainWork and
prevHash. -/
def updatedTipEntry (st : ChainState) (tip : BlockHeader) (e : FileEntry) :
    FileEntry :=
  let e1 := { e with
    count := tip.height % 100000 + 1
    lastChainWork := tip.chainWork
    lastHash := tip.header.hash }
  if 0 < tip.height then
    match GetHeaderByHeight st (tip.height - 1) with
    | some prev =>
      { e1 with prevChainWork := prev.chainWork, prevHash := prev.header.hash }
    | none => e1
  else e1

/-- updateMetadataForTip (the pure manifest computation): with a nil tip the
manifest is left as read; otherwise append empty entries for every file
index from len(files) up to tip.Height/100000, then overwrite the entry at
the tip's file index with `updatedTipEntry`. Reading and atomically writing
the JSON file are modelled by taking and returning the entry list. -/
def updateMetadataForTip (st : ChainState) (files : List FileEntry) :
    List FileEntry :=
  match st.tip with
  | none => files
  | some tip =>
    let fileIndex := tip.height / 100000
    let files1 := files ++
      (List.range (fileIndex + 1 - files.length)).map
        (fun j => mkEmptyFileEntry (files.length + j))
    match files1[fileIndex]? with
    | none => files1
    | some e => files1.set fileIndex (updatedTipEntry st tip e)

end ChainManager

/-- Contents of one on-disk `.headers` file: a partial map from byte offset
to byte (seek-with-gap leaves offsets unset). -/
def FileBytes := Nat → Option Nat

/-- Seek to `off` and write the given bytes there. -/
def writeBytesAt (f : FileBytes) (off : Nat) (bytes : List Nat) : FileBytes :=
  fun i => if off ≤ i ∧ i - off < bytes.length then bytes[i - off]? else f i

/-- The whole storage directory: file index ↦ file contents. -/
def FileSystem := Nat → FileBytes

namespace ChainManager

/-- writeHeadersToFiles: group the branch records by file index
`Height / 100000` (a Go map keyed by file index, each group keeping the
branch order) and, per file, seek to `(Height % 100000) * 80` and write the
record's 80 raw bytes. Groups touch disjoint files, so the arbitrary map
iteration order is modelled by giving each file index its own fold over the
records that fall into it. -/
def writeHeadersToFiles (fs : FileSystem) (headers : List BlockHeader) :
    FileSystem :=
  fun k =>
    (headers.filter (fun bh => bh.height / 100000 == k)).foldl
      (fun f bh => writeBytesAt f (bh.height % 100000 * 80) bh.header.bytes)
      (fs k)

/-- The chain-work annotation loop of loadFromLocalFiles: records get heights
`firstHeight, firstHeight+1, …`; height 0 gets chain work 0, every other
record gets the running previous chain work plus its own work. -/
def annotateFileHeaders (height : Nat) (prevChainWork : Nat) :
    List RawHeader → List BlockHeader
  | [] => []
  | hdr :: rest =>
    let chainWork := if height = 0 then 0
                     else prevChainWork + CalculateWork hdr.bits
    ⟨hdr, height, chainWork⟩ :: annotateFileHeaders (height + 1) chainWork rest

/-- One file entry of the loadFromLocalFiles loop. `hdrs` is everything
loadHeadersFromFile decoded from the binary file — all len(data)/80 records.
The previous chain work is seeded with 0 for firstHeight = 0 and otherwise
with the chain work of the best-chain header just below the file (an error,
`none`, when that lookup misses); the annotated records are then applied
with SetChainTip. -/
def loadFileEntry (st : ChainState) (entry : FileEntry) (hdrs : List RawHeader) :
    Option ChainState :=
  match (if entry.firstHeight = 0 then some 0
         else (GetHeaderByHeight st (entry.firstHeight - 1)).map
           (fun prev => prev.chainWork)) with
  | none => none
  | some prevChainWork =>
    some (SetChainTip st (annotateFileHeaders entry.firstHeight prevChainWork hdrs))

end ChainManager

/-! ### HTTP handler cache decision (api.go) -/

/-- 32-bit unsigned subtraction as Go computes `tip - 100` on uint32 values:
wraps modulo 2^32 instead of clamping. -/
def u32sub (a b : Nat) : Nat :=
  (a % 2 ^ 32 + 2 ^ 32 - b % 2 ^ 32) % 2 ^ 32

/-- The cache-control classification in HandleGetHeaderByHeight:
`uint32(height) < tip-100` selects `public, max-age=3600` (long-cacheable
deep history); otherwise `no-cache`. `tip` is GetHeight(), 0 on a nil tip. -/
def HandleGetHeaderByHeightLongCache (st : ChainState) (reqHeight : Nat) : Bool :=
  decide (reqHeight % 2 ^ 32 < u32sub (ChainManager.GetHeight st) 100)

/-! ### Concrete demonstration chain

A linear chain used for concrete inputs: header `i` has hash `i`, its parent
is `i - 1`, and its compact bits decode to a target above 2^256 so that each
block's work is 0 and the cumulative chain work is 0 everywhere (consistent
with `chainWork(child) = chainWork(parent) + work(bits)`). -/

/-- Raw demonstration header at height `i`. -/
def demoRaw (i : Nat) : RawHeader :=
  { version := 1
    prevHash := if i = 0 then 888888888 else i - 1
    merkleRoot := 0
    timestamp := 0
    bits := 0x21ffffff
    nonce := 0
    hash := i
    bytes := List.replicate 80 0 }

/-- Annotated demonstration header at height `i`. -/
def demoBH (i : Nat) : BlockHeader := ⟨demoRaw i, i, 0⟩

/-- A dense best chain of heights 0..n: byHeight i = i, every chain member
in byHash, tip at height n. -/
def demoState (n : Nat) : ChainState :=
  { byHeight := List.range (n + 1)
    byHash := fun h => if h ≤ n then some (demoBH h) else none
    tip := some (demoBH n) }

theorem demoState_tip (n : Nat) : (demoState n).tip = some (demoBH n) := rfl

theorem demoState_byHeight_length (n : Nat) :
    (demoState n).byHeight.length = n + 1 :=
  List.length_range (n + 1)

/-- A header extending the demonstration genesis (parent hash 0), fresh
hash 9. -/
def c1X : RawHeader := { demoRaw 1 with hash := 9 }

/-- A header whose parent is the demonstration genesis but which is
announced with claimed height 42. -/
def c2X : RawHeader := { demoRaw 1 with hash := 7 }

/-- A header whose parent sits at height 50 of the demonstration chain,
fresh hash 999999. -/
def c9X : RawHeader := { demoRaw 51 with hash := 999999 }

/-- An annotated header at height 5 with fresh hash 55, to be added to a
chain whose tip is at height 1 (leaving a gap). -/
def c10BH : BlockHeader := ⟨{ demoRaw 5 with hash := 55 }, 5, 0⟩

/-- An empty storage directory: every byte of every file unset. -/
def emptyFS : FileSystem := fun _ _ => none

/-- A height-1 record with recognizable bytes 0..79. -/
def w8A : BlockHeader := ⟨{ demoRaw 1 with bytes := List.range 80 }, 1, 0⟩

/-- A height-2 record (same file as w8A, different slot) with bytes all 7. -/
def w8B : BlockHeader := ⟨{ demoRaw 2 with bytes := List.replicate 80 7 }, 2, 0⟩

/-- A manifest entry claiming a single record (count = 1) for the file
starting at height 0. -/
def c5Entry : FileEntry := ⟨1, 0, 0, 0, 0, 0⟩

/-- The state produced by loading two records under `c5Entry`. -/
def c5Post : ChainState :=
  ChainManager.SetChainTip emptyState
    (ChainManager.annotateFileHeaders 0 0 [demoRaw 0, demoRaw 1])

/-- A stale side-branch header at height 5 (hash 999), far below the
retention window of a chain whose tip is at height 201. -/
def c9WOrphan : BlockHeader := ⟨{ demoRaw 5 with hash := 999 }, 5, 0⟩

/-- The demonstration chain with tip at height 201 plus the stale
side-branch header `c9WOrphan`. -/
def c9WState : ChainState :=
  { byHeight := List.range 202
    byHash := fun h =>
      if h = 999 then some c9WOrphan
      else if h ≤ 201 then some (demoBH h) else none
    tip := some (demoBH 201) }

/-! ### Helper lemmas -/

theorem grow_length (l : List Hash) (h : Nat) :
    (growByHeight l h).length = max l.length (h + 1) := by
  simp only [growByHeight, List.length_append, List.length_replicate]
  omega

theorem grow_getElem?_left (l : List Hash) (h i : Nat) (hi : i < l.length) :
    (growByHeight l h)[i]? = l[i]? := by
  simp only [growByHeight, List.getElem?_append]
  simp [hi]

theorem grow_getElem?_pad (l : List Hash) (h i : Nat)
    (hi : l.length ≤ i) (hih : i ≤ h) :
    (growByHeight l h)[i]? = some zeroHash := by
  rw [growByHeight, List.getElem?_append_right hi, List.getElem?_replicate,
    if_pos (show i - l.length < h + 1 - l.length by omega)]

namespace ChainManager

theorem applyBranchHeader_tip (st : ChainState) (bh : BlockHeader) :
    (applyBranchHeader st bh).tip = st.tip := rfl

theorem applyBranchHeader_length (st : ChainState) (bh : BlockHeader) :
    (applyBranchHeader st bh).byHeight.length
      = max st.byHeight.length (bh.height + 1) := by
  simp [applyBranchHeader, List.length_set, grow_length]

theorem foldl_applyBranch_tip (branch : List BlockHeader) (st : ChainState) :
    (branch.foldl applyBranchHeader st).tip = st.tip := by
  induction branch generalizing st with
  | nil => rfl
  | cons b rest ih => rw [List.foldl_cons, ih, applyBranchHeader_tip]

theorem pruneOrphans_tip (st : ChainState) : (pruneOrphans st).tip = st.tip := by
  unfold pruneOrphans
  cases ht : st.tip with
  | none => exact ht
  | some t => rfl

theorem pruneOrphans_byHeight (st : ChainState) :
    (pruneOrphans st).byHeight = st.byHeight := by
  unfold pruneOrphans
  cases ht : st.tip with
  | none => rfl
  | some t => rfl

theorem lt_pruneHeight_iff (x T : Nat) :
    (x < if 100 < T then T - 100 else 0) ↔ x + 100 < T := by
  by_cases h : 100 < T <;> simp [h] <;> omega

theorem pruneOrphans_byHash_char (st : ChainState) (t : BlockHeader)
    (ht : st.tip = some t) (h : Hash) :
    (pruneOrphans st).byHash h =
      match st.byHash h with
      | none => none
      | some hdr =>
        if st.byHeight[hdr.height]? = some h then some hdr
        else if hdr.height + 100 < t.height then none
        else some hdr := by
  unfold pruneOrphans
  rw [ht]
  cases hb : st.byHash h with
  | none => simp [hb]
  | some hdr =>
    simp only [hb]
    by_cases hm : st.byHeight[hdr.height]? = some h
    · simp [hm]
    · simp only [if_neg hm]
      by_cases hlt : hdr.height + 100 < t.height
      · rw [if_pos ((lt_pruneHeight_iff _ _).mpr hlt), if_pos hlt]
      · rw [if_neg (fun hc => hlt ((lt_pruneHeight_iff _ _).mp hc)), if_neg hlt]

theorem pruneOrphans_byHash_none (st : ChainState) (t : BlockHeader)
    (ht : st.tip = some t) (h : Hash) (hb : st.byHash h = none) :
    (pruneOrphans st).byHash h = none := by
  rw [pruneOrphans_byHash_char st t ht h, hb]

theorem pruneOrphans_byHash_some (st : ChainState) (t : BlockHeader)
    (ht : st.tip = some t) (h : Hash) (hdr : BlockHeader)
    (hb : st.byHash h = some hdr) :
    (pruneOrphans st).byHash h =
      if st.byHeight[hdr.height]? = some h then some hdr
      else if hdr.height + 100 < t.height then none else some hdr := by
  rw [pruneOrphans_byHash_char st t ht h, hb]

theorem pruneOrphans_keeps_main (st : ChainState) (h : Hash) (hdr : BlockHeader)
    (hb : st.byHash h = some hdr) (hm : st.byHeight[hdr.height]? = some h) :
    (pruneOrphans st).byHash h = some hdr := by
  cases ht : st.tip with
  | none => unfold pruneOrphans; rw [ht]; exact hb
  | some t => rw [pruneOrphans_byHash_char st t ht h, hb]; simp [hm]

theorem SetChainTip_tip (st : ChainState) (branch : List BlockHeader)
    (last : BlockHeader) (hl : branch.getLast? = some last) :
    (SetChainTip st branch).tip = some last := by
  unfold SetChainTip
  rw [hl, pruneOrphans_tip]

theorem foldl_applyBranch_concat_length (init : List BlockHeader)
    (last : BlockHeader) (st : ChainState) :
    ((init ++ [last]).foldl applyBranchHeader st).byHeight.length
      = max ((init.foldl applyBranchHeader st).byHeight.length) (last.height + 1) := by
  rw [List.foldl_append]
  simp [applyBranchHeader_length]

theorem SetChainTip_length (st : ChainState) (branch : List BlockHeader)
    (last : BlockHeader) (hl : branch.getLast? = some last) :
    (SetChainTip st branch).byHeight.length = last.height + 1 := by
  rcases List.eq_nil_or_concat branch with hnil | ⟨init, b, hcat⟩
  · rw [hnil] at hl; simp at hl
  · have hb : b = last := by
      rw [hcat, List.concat_eq_append, List.getLast?_concat] at hl
      exact Option.some.inj hl
    subst hb
    unfold SetChainTip
    rw [hl, pruneOrphans_byHeight]
    have hlen : (branch.foldl applyBranchHeader st).byHeight.length
        = max ((init.foldl applyBranchHeader st).byHeight.length) (b.height + 1) := by
      rw [hcat, List.concat_eq_append, foldl_applyBranch_concat_length]
    by_cases hc : b.height + 1 < (branch.foldl applyBranchHeader st).byHeight.length
    · simp only [if_pos hc, List.length_take]
      omega
    · simp only [if_neg hc]
      omega

theorem applyBranchHeader_byHeight_self (st : ChainState) (bh : BlockHeader) :
    (applyBranchHeader st bh).byHeight[bh.height]? = some bh.header.hash := by
  unfold applyBranchHeader
  exact List.getElem?_set_self (by rw [grow_length]; omega)

theorem applyBranchHeader_byHash_self (st : ChainState) (bh : BlockHeader) :
    (applyBranchHeader st bh).byHash bh.header.hash = some bh := by
  simp [applyBranchHeader]

theorem SetChainTip_singleton_byHeight (st : ChainState) (bh : BlockHeader) :
    (SetChainTip st [bh]).byHeight[bh.height]? = some bh.header.hash := by
  unfold SetChainTip
  simp only [List.getLast?_singleton, List.foldl_cons, List.foldl_nil]
  rw [pruneOrphans_byHeight]
  by_cases hc : bh.height + 1 < (applyBranchHeader st bh).byHeight.length
  · simp only [if_pos hc, List.getElem?_take, if_pos (Nat.lt_succ_self _)]
    exact applyBranchHeader_byHeight_self st bh
  · simp only [if_neg hc]
    exact applyBranchHeader_byHeight_self st bh

theorem SetChainTip_singleton_byHash (st : ChainState) (bh : BlockHeader) :
    (SetChainTip st [bh]).byHash bh.header.hash = some bh := by
  conv_lhs => unfold SetChainTip
  simp only [List.getLast?_singleton, List.foldl_cons, List.foldl_nil]
  refine pruneOrphans_keeps_main _ _ bh ?_ ?_
  · exact applyBranchHeader_byHash_self st bh
  · show (if bh.height + 1 < (applyBranchHeader st bh).byHeight.length
          then (applyBranchHeader st bh).byHeight.take (bh.height + 1)
          else (applyBranchHeader st bh).byHeight)[bh.height]? = _
    by_cases hc : bh.height + 1 < (applyBranchHeader st bh).byHeight.length
    · simp only [if_pos hc, List.getElem?_take, if_pos (Nat.lt_succ_self _)]
      exact applyBranchHeader_byHeight_self st bh
    · simp only [if_neg hc]
      exact applyBranchHeader_byHeight_self st bh

theorem AddHeader_tip (st : ChainState) (bh : BlockHeader) :
    (AddHeader st bh).tip = st.tip := rfl

theorem AddHeader_byHeight (st : ChainState) (bh : BlockHeader) :
    (AddHeader st bh).byHeight = st.byHeight := rfl

theorem AddHeader_byHash_self (st : ChainState) (bh : BlockHeader) :
    (AddHeader st bh).byHash bh.header.hash = some bh := by
  simp [AddHeader]

theorem AddHeader_byHash_other (st : ChainState) (bh : BlockHeader) (h : Hash)
    (hne : h ≠ bh.header.hash) :
    (AddHeader st bh).byHash h = st.byHash h := by
  simp [AddHeader, hne]

theorem annotateFileHeaders_length (l : List RawHeader) (h w : Nat) :
    (annotateFileHeaders h w l).length = l.length := by
  induction l generalizing h w with
  | nil => rfl
  | cons hd tl ih => simp [annotateFileHeaders, ih]

theorem annotateFileHeaders_getLast (l : List RawHeader) (h w : Nat)
    (hne : l ≠ []) :
    ∃ bh, (annotateFileHeaders h w l).getLast? = some bh ∧
      bh.height + 1 = h + l.length := by
  induction l generalizing h w with
  | nil => exact absurd rfl hne
  | cons hd tl ih =>
    cases tl with
    | nil =>
      refine ⟨⟨hd, h, if h = 0 then 0 else w + CalculateWork hd.bits⟩, ?_, by simp⟩
      simp [annotateFileHeaders]
    | cons t0 t1 =>
      obtain ⟨bh, hlast, hh⟩ := ih (h + 1)
        (if h = 0 then 0 else w + CalculateWork hd.bits) (by simp)
      refine ⟨bh, ?_, by simp at hh ⊢; omega⟩
      simp only [annotateFileHeaders] at hlast ⊢
      rw [List.getLast?_cons_cons]
      exact hlast

theorem updatedTipEntry_count (st : ChainState) (tip : BlockHeader)
    (e : FileEntry) :
    (ChainManager.updatedTipEntry st tip e).count = tip.height % 100000 + 1 := by
  unfold ChainManager.updatedTipEntry
  by_cases h0 : 0 < tip.height
  · simp only [if_pos h0]
    cases ChainManager.GetHeaderByHeight st (tip.height - 1) <;> rfl
  · simp only [if_neg h0]

/-- Full characterization of the manifest refresh with a non-nil tip. -/
theorem updateMetadataForTip_char (st : ChainState) (files : List FileEntry)
    (tip : BlockHeader) (ht : st.tip = some tip) :
    (ChainManager.updateMetadataForTip st files).length
      = max files.length (tip.height / 100000 + 1) ∧
    ((ChainManager.updateMetadataForTip st files)[tip.height / 100000]?).map
        FileEntry.count = some (tip.height % 100000 + 1) ∧
    (∀ i, files.length ≤ i → i < tip.height / 100000 →
      (ChainManager.updateMetadataForTip st files)[i]?
        = some (mkEmptyFileEntry i)) ∧
    (∀ i, i < files.length → i ≠ tip.height / 100000 →
      (ChainManager.updateMetadataForTip st files)[i]? = files[i]?) := by
  have hL : (files ++
      (List.range (tip.height / 100000 + 1 - files.length)).map
        (fun j => mkEmptyFileEntry (files.length + j))).length
      = max files.length (tip.height / 100000 + 1) := by
    simp only [List.length_append, List.length_map, List.length_range]
    omega
  have hlt : tip.height / 100000 < (files ++
      (List.range (tip.height / 100000 + 1 - files.length)).map
        (fun j => mkEmptyFileEntry (files.length + j))).length := by
    rw [hL]; omega
  have hout : ChainManager.updateMetadataForTip st files
      = (files ++
          (List.range (tip.height / 100000 + 1 - files.length)).map
            (fun j => mkEmptyFileEntry (files.length + j))).set
          (tip.height / 100000)
          (ChainManager.updatedTipEntry st tip
            ((files ++
              (List.range (tip.height / 100000 + 1 - files.length)).map
                (fun j => mkEmptyFileEntry (files.length + j))).get
              ⟨tip.height / 100000, hlt⟩)) := by
    unfold ChainManager.updateMetadataForTip
    rw [ht]
    simp only [List.getElem?_eq_getElem hlt, List.get_eq_getElem]
  refine ⟨?_, ?_, ?_, ?_⟩
  · rw [hout, List.length_set, hL]
  · rw [hout, List.getElem?_set_self hlt, Option.map_some', updatedTipEntry_count]
  · intro i h1 h2
    rw [hout, List.getElem?_set_ne (by omega),
      List.getElem?_append_right h1, List.getElem?_map,
      List.getElem?_range (by omega)]
    rw [Option.map_some', show files.length + (i - files.length) = i by omega]
  · intro i h1 h2
    rw [hout, List.getElem?_set_ne (by omega), List.getElem?_append]
    simp [h1]

/-- Case analysis of addBlockToChain with a known parent: the candidate
record carries the claimed height, and the branch taken is decided by
comparing its chain work with the tip's. -/
theorem addBlockToChain_cases (st : ChainState) (hdr : RawHeader) (height : Nat)
    (parent : BlockHeader) (hp : st.byHash hdr.prevHash = some parent) :
    (st.tip = none →
      addBlockToChain st hdr height =
        some (SetChainTip
          (AddHeader st ⟨hdr, height, parent.chainWork + CalculateWork hdr.bits⟩)
          [⟨hdr, height, parent.chainWork + CalculateWork hdr.bits⟩])) ∧
    (∀ t, st.tip = some t →
      t.chainWork < parent.chainWork + CalculateWork hdr.bits →
      addBlockToChain st hdr height =
        some (SetChainTip
          (AddHeader st ⟨hdr, height, parent.chainWork + CalculateWork hdr.bits⟩)
          [⟨hdr, height, parent.chainWork + CalculateWork hdr.bits⟩])) ∧
    (∀ t, st.tip = some t →
      ¬ t.chainWork < parent.chainWork + CalculateWork hdr.bits →
      addBlockToChain st hdr height =
        some (AddHeader st ⟨hdr, height, parent.chainWork + CalculateWork hdr.bits⟩)) := by
  refine ⟨fun ht => ?_, fun t ht hlt => ?_, fun t ht hnlt => ?_⟩
  · unfold addBlockToChain
    rw [hp]
    simp only [AddHeader_tip, ht]
  · unfold addBlockToChain
    rw [hp]
    simp only [AddHeader_tip, ht]
    rw [if_pos hlt]
  · unfold addBlockToChain
    rw [hp]
    simp only [AddHeader_tip, ht]
    rw [if_neg hnlt]

end ChainManager

theorem writeBytesAt_read_in (f : FileBytes) (off : Nat) (bytes : List Nat)
    (j : Nat) (hj : j < bytes.length) :
    writeBytesAt f off bytes (off + j) = bytes[j]? := by
  unfold writeBytesAt
  rw [if_pos ⟨Nat.le_add_right off j, by omega⟩,
    show off + j - off = j from by omega]

theorem writeBytesAt_read_out (f : FileBytes) (off : Nat) (bytes : List Nat)
    (i : Nat) (h : i < off ∨ off + bytes.length ≤ i) :
    writeBytesAt f off bytes i = f i := by
  unfold writeBytesAt
  rw [if_neg]
  rintro ⟨h1, h2⟩
  omega

theorem foldl_write_preserve (l : List BlockHeader) (f : FileBytes) (i : Nat)
    (hout : ∀ y ∈ l, i < y.height % 100000 * 80 ∨
      y.height % 100000 * 80 + y.header.bytes.length ≤ i) :
    (l.foldl (fun g b => writeBytesAt g (b.height % 100000 * 80) b.header.bytes) f) i
      = f i := by
  induction l generalizing f with
  | nil => rfl
  | cons x rest ih =>
    rw [List.foldl_cons, ih _ (fun y hy => hout y (List.mem_cons_of_mem x hy)),
      writeBytesAt_read_out _ _ _ _ (hout x (List.mem_cons_self x rest))]

theorem foldl_write_mem (l : List BlockHeader) (f : FileBytes)
    (hlen : ∀ y ∈ l, y.header.bytes.length = 80)
    (hdist : l.Pairwise (fun a b => a.height % 100000 ≠ b.height % 100000))
    (bh : BlockHeader) (hmem : bh ∈ l) (j : Nat) (hj : j < 80) :
    (l.foldl (fun g b => writeBytesAt g (b.height % 100000 * 80) b.header.bytes) f)
        (bh.height % 100000 * 80 + j)
      = bh.header.bytes[j]? := by
  induction l generalizing f with
  | nil => simp at hmem
  | cons x rest ih =>
    rw [List.foldl_cons]
    rcases List.mem_cons.mp hmem with heq | hmem2
    · subst heq
      have hout : ∀ y ∈ rest, bh.height % 100000 * 80 + j < y.height % 100000 * 80 ∨
          y.height % 100000 * 80 + y.header.bytes.length ≤ bh.height % 100000 * 80 + j := by
        intro y hy
        have hne := (List.pairwise_cons.mp hdist).1 y hy
        have hylen := hlen y (List.mem_cons_of_mem _ hy)
        rw [hylen]
        omega
      rw [foldl_write_preserve rest _ _ hout]
      exact writeBytesAt_read_in f _ _ j
        (by rw [hlen bh (List.mem_cons_self bh rest)]; exact hj)
    · exact ih _ (fun y hy => hlen y (List.mem_cons_of_mem _ hy))
        (List.pairwise_cons.mp hdist).2 hmem2

/-! ### Claim theorems -/

/-- C1: Fork choice is strict: for every admitted header whose parent is
known, the branch is applied and the tip replaced only when the candidate's
cumulative chain work is strictly greater than the current tip's chain work
(or the tip is None); when the candidate's chain work is equal to or less
than the tip's, the tip (and byHeight) are left unchanged and the header is
kept as a side entry in byHash. -/
theorem addBlockToChain_strict_fork_choice (st : ChainState) (hdr : RawHeader)
    (height : Nat) (parent : BlockHeader)
    (hp : st.byHash hdr.prevHash = some parent) :
    ∃ st', ChainManager.addBlockToChain st hdr height = some st' ∧
      ((st.tip = none ∨ ∃ t, st.tip = some t ∧
          t.chainWork < parent.chainWork + CalculateWork hdr.bits) →
        st'.tip = some ⟨hdr, height, parent.chainWork + CalculateWork hdr.bits⟩ ∧
        st'.byHeight[height]? = some hdr.hash ∧
        st'.byHash hdr.hash = some ⟨hdr, height, parent.chainWork + CalculateWork hdr.bits⟩) ∧
      (∀ t, st.tip = some t →
        parent.chainWork + CalculateWork hdr.bits ≤ t.chainWork →
        st'.tip = st.tip ∧ st'.byHeight = st.byHeight ∧
        st'.byHash hdr.hash = some ⟨hdr, height, parent.chainWork + CalculateWork hdr.bits⟩ ∧
        ∀ h, h ≠ hdr.hash → st'.byHash h = st.byHash h) := by
  obtain ⟨hnone, hgt, hle⟩ := ChainManager.addBlockToChain_cases st hdr height parent hp
  cases ht : st.tip with
  | none =>
    refine ⟨_, hnone ht, fun _ => ?_, fun t ht' => ?_⟩
    · exact ⟨ChainManager.SetChainTip_tip _ _ _ (by simp),
        ChainManager.SetChainTip_singleton_byHeight _ _,
        ChainManager.SetChainTip_singleton_byHash _ _⟩
    · exact absurd ht' (by simp)
  | some t =>
    by_cases hcw : t.chainWork < parent.chainWork + CalculateWork hdr.bits
    · refine ⟨_, hgt t ht hcw, fun _ => ?_, fun t' ht' hle' => ?_⟩
      · exact ⟨ChainManager.SetChainTip_tip _ _ _ (by simp),
          ChainManager.SetChainTip_singleton_byHeight _ _,
          ChainManager.SetChainTip_singleton_byHash _ _⟩
      · cases Option.some.inj ht'
        omega
    · refine ⟨_, hle t ht hcw, fun hd => ?_, fun t' ht' hle' => ?_⟩
      · rcases hd with hd | ⟨t', ht', hlt'⟩
        · exact absurd hd (by simp)
        · cases Option.some.inj ht'
          omega
      · exact ⟨(ChainManager.AddHeader_tip st _).trans ht, rfl,
          ChainManager.AddHeader_byHash_self st _,
          fun h hne => ChainManager.AddHeader_byHash_other st _ h hne⟩

/-- Witness for C1 at a concrete input: the demonstration genesis-only
chain, extended by a header of equal cumulative work (work 0), keeps its
tip and stores the header as a side entry. -/
theorem addBlockToChain_strict_fork_choice_witness :
    (demoState 0).byHash c1X.prevHash = some (demoBH 0) ∧
    (∃ st', ChainManager.addBlockToChain (demoState 0) c1X 1 = some st' ∧
      (((demoState 0).tip = none ∨ ∃ t, (demoState 0).tip = some t ∧
          t.chainWork < (demoBH 0).chainWork + CalculateWork c1X.bits) →
        st'.tip = some ⟨c1X, 1, (demoBH 0).chainWork + CalculateWork c1X.bits⟩ ∧
        st'.byHeight[1]? = some c1X.hash ∧
        st'.byHash c1X.hash = some ⟨c1X, 1, (demoBH 0).chainWork + CalculateWork c1X.bits⟩) ∧
      (∀ t, (demoState 0).tip = some t →
        (demoBH 0).chainWork + CalculateWork c1X.bits ≤ t.chainWork →
        st'.tip = (demoState 0).tip ∧ st'.byHeight = (demoState 0).byHeight ∧
        st'.byHash c1X.hash = some ⟨c1X, 1, (demoBH 0).chainWork + CalculateWork c1X.bits⟩ ∧
        ∀ h, h ≠ c1X.hash → st'.byHash h = (demoState 0).byHash h)) :=
  ⟨by decide, addBlockToChain_strict_fork_choice (demoState 0) c1X 1 (demoBH 0) (by decide)⟩

/-- C2 counterexample: the p2p admission path accepts a header whose claimed
height 42 disagrees with parent.height + 1 = 1, surfaces no error, and
records height 42. -/
theorem addBlockToChain_no_height_validation_cex :
    ((demoState 0).byHash c2X.prevHash).map BlockHeader.height = some 0 ∧
    (ChainManager.addBlockToChain (demoState 0) c2X 42).map
        (fun s => (s.byHash 7).map BlockHeader.height) = some (some 42) ∧
    (42 : Nat) ≠ 0 + 1 := by decide

/-- C2 amended: for every announced header whose parent is known, admission
succeeds and records exactly the claimed height — even when it differs from
parent.height + 1; no InvalidHeader is raised (the admission path performs
no height validation). -/
theorem addBlockToChain_records_claimed_height (st : ChainState)
    (hdr : RawHeader) (height : Nat) (parent : BlockHeader)
    (hp : st.byHash hdr.prevHash = some parent) :
    ∃ st', ChainManager.addBlockToChain st hdr height = some st' ∧
      st'.byHash hdr.hash = some ⟨hdr, height, parent.chainWork + CalculateWork hdr.bits⟩ := by
  obtain ⟨hnone, hgt, hle⟩ := ChainManager.addBlockToChain_cases st hdr height parent hp
  cases ht : st.tip with
  | none => exact ⟨_, hnone ht, ChainManager.SetChainTip_singleton_byHash _ _⟩
  | some t =>
    by_cases hcw : t.chainWork < parent.chainWork + CalculateWork hdr.bits
    · exact ⟨_, hgt t ht hcw, ChainManager.SetChainTip_singleton_byHash _ _⟩
    · exact ⟨_, hle t ht hcw, ChainManager.AddHeader_byHash_self st _⟩

/-- Witness for the amended C2 at a concrete input: a height-42 announcement
over the genesis parent is admitted and recorded at height 42. -/
theorem addBlockToChain_records_claimed_height_witness :
    (demoState 0).byHash c2X.prevHash = some (demoBH 0) ∧
    (∃ st', ChainManager.addBlockToChain (demoState 0) c2X 42 = some st' ∧
      st'.byHash c2X.hash = some ⟨c2X, 42, (demoBH 0).chainWork + CalculateWork c2X.bits⟩) :=
  ⟨by decide, addBlockToChain_records_claimed_height (demoState 0) c2X 42 (demoBH 0) (by decide)⟩

/-- C3 counterexample: admitting a header whose hash is already in byHash
does not return silently — ProcessHeader surfaces ErrDuplicateHeader to its
caller. -/
theorem ProcessHeader_duplicate_not_silent_cex :
    (ChainManager.ProcessHeader (demoState 3) (demoRaw 2)).fst
      = some ProcErr.duplicateHeader ∧
    some ProcErr.duplicateHeader ≠ (none : Option ProcErr) := by
  constructor
  · rfl
  · decide

/-- C3 amended: admission of a header whose hash is already present in
byHash returns ErrDuplicateHeader to the caller (it is not silent), and
tip, byHeight and byHash are left entirely unchanged. -/
theorem ProcessHeader_duplicate_rejected (st : ChainState) (hdr : RawHeader)
    (hdup : (st.byHash hdr.hash).isSome = true) :
    ChainManager.ProcessHeader st hdr = (some ProcErr.duplicateHeader, st) := by
  unfold ChainManager.ProcessHeader HeaderStore.HasHeader
  rw [if_pos hdup]

/-- Witness for the amended C3 at a concrete input. -/
theorem ProcessHeader_duplicate_rejected_witness :
    ((demoState 3).byHash (demoRaw 2).hash).isSome = true ∧
    ChainManager.ProcessHeader (demoState 3) (demoRaw 2)
      = (some ProcErr.duplicateHeader, demoState 3) :=
  ⟨by decide, ProcessHeader_duplicate_rejected (demoState 3) (demoRaw 2) (by decide)⟩

/-- C4: after every SetChainTip with a non-empty branch, the tip is the
branch's last element and len(byHeight) = tip.height + 1 — in particular
byHeight is truncated when the branch's last height is below the previous
best-chain length. -/
theorem SetChainTip_tip_density (st : ChainState) (branch : List BlockHeader)
    (last : BlockHeader) (hl : branch.getLast? = some last) :
    (ChainManager.SetChainTip st branch).tip = some last ∧
    (ChainManager.SetChainTip st branch).byHeight.length = last.height + 1 :=
  ⟨ChainManager.SetChainTip_tip st branch last hl,
   ChainManager.SetChainTip_length st branch last hl⟩

/-- Witness for C4 at a concrete input: applying a branch ending at height 3
on a chain of previous length 6 truncates byHeight to length 4. -/
theorem SetChainTip_tip_density_witness :
    ([demoBH 3].getLast? = some (demoBH 3)) ∧
    ((ChainManager.SetChainTip (demoState 5) [demoBH 3]).tip = some (demoBH 3) ∧
     (ChainManager.SetChainTip (demoState 5) [demoBH 3]).byHeight.length = 3 + 1) :=
  ⟨by decide, SetChainTip_tip_density (demoState 5) [demoBH 3] (demoBH 3) (by decide)⟩

/-- C10: in the store's AddHeader, a successfully added header replaces the
tip exactly when the tip is nil or the new height is strictly greater — the
comparison is on heights only, never on chain work — byHeight[height] is set
to its hash even off the best chain, and any gap below is padded with zero
hashes. -/
theorem StoreAddHeader_height_based_tip (st : ChainState) (bh : BlockHeader)
    (hnew : st.byHash bh.header.hash = none) :
    ∃ st', HeaderStore.AddHeader st bh = some st' ∧
      st'.tip = (match st.tip with
                 | none => some bh
                 | some t => if t.height < bh.height then some bh else some t) ∧
      st'.byHeight[bh.height]? = some bh.header.hash ∧
      (∀ i, st.byHeight.length ≤ i → i < bh.height →
        st'.byHeight[i]? = some zeroHash) ∧
      st'.byHash bh.header.hash = some bh := by
  unfold HeaderStore.AddHeader
  rw [hnew]
  refine ⟨_, rfl, rfl, ?_, ?_, ?_⟩
  · exact List.getElem?_set_self (by rw [grow_length]; omega)
  · intro i h1 h2
    rw [List.getElem?_set_ne (by omega)]
    exact grow_getElem?_pad _ _ _ h1 (by omega)
  · simp

/-- C5 counterexample: a manifest entry with count = 1 over a binary file
holding two 80-byte records places both records on the best chain — the
record past count·80 is loaded, not ignored. -/
theorem loadFileEntry_count_ignored_cex :
    c5Entry.count = 1 ∧
    (ChainManager.loadFileEntry emptyState c5Entry [demoRaw 0, demoRaw 1]).map
        (fun s => (s.byHeight.length,
                   (ChainManager.GetHeaderByHeight s 1).map BlockHeader.height))
      = some (2, some 1) := by decide

/-- C5 amended: on restart load, every 80-byte record of the binary file is
placed on the best chain regardless of the manifest count — the loader
never consults the count field (the result is identical for every count
value), and the resulting best chain extends to
firstHeight + len(file)/80. -/
theorem loadFileEntry_ignores_count (st : ChainState) (entry : FileEntry)
    (hdrs : List RawHeader) (st' : ChainState)
    (h : ChainManager.loadFileEntry st entry hdrs = some st')
    (hne : hdrs ≠ []) :
    st'.byHeight.length = entry.firstHeight + hdrs.length ∧
    (∀ c, ChainManager.loadFileEntry st { entry with count := c } hdrs = some st') := by
  refine ⟨?_, fun _ => h⟩
  unfold ChainManager.loadFileEntry at h
  cases hw : (if entry.firstHeight = 0 then some 0
      else (ChainManager.GetHeaderByHeight st (entry.firstHeight - 1)).map
        (fun prev => prev.chainWork)) with
  | none =>
    rw [hw] at h
    exact absurd h (by simp)
  | some pw =>
    rw [hw] at h
    obtain ⟨bh, hlast, hh⟩ :=
      ChainManager.annotateFileHeaders_getLast hdrs entry.firstHeight pw hne
    have hlen := ChainManager.SetChainTip_length st
      (ChainManager.annotateFileHeaders entry.firstHeight pw hdrs) bh hlast
    cases Option.some.inj h
    rw [hlen]
    omega

/-- Witness for the amended C5 at a concrete input: loading two records
under a count-1 entry gives the same state for any count value and a chain
of length 2. -/
theorem loadFileEntry_ignores_count_witness :
    ChainManager.loadFileEntry emptyState c5Entry [demoRaw 0, demoRaw 1]
        = some c5Post ∧
    [demoRaw 0, demoRaw 1] ≠ ([] : List RawHeader) ∧
    (c5Post.byHeight.length = c5Entry.firstHeight + [demoRaw 0, demoRaw 1].length ∧
     (∀ c, ChainManager.loadFileEntry emptyState { c5Entry with count := c }
        [demoRaw 0, demoRaw 1] = some c5Post)) :=
  ⟨rfl, by decide,
   loadFileEntry_ignores_count emptyState c5Entry [demoRaw 0, demoRaw 1] c5Post
     rfl (by decide)⟩

/-- C6 counterexample: a manifest refresh from an empty manifest with the
tip at height 100000 creates the entry for the (full) earlier file 0 with
count = 0, not 100000, even though the best chain covers all 100000 of its
heights. -/
theorem updateMetadataForTip_stale_full_entry_cex :
    (demoState 100000).byHeight.length = 100001 ∧
    ((ChainManager.updateMetadataForTip (demoState 100000) [])[0]?).map
        FileEntry.count = some 0 ∧
    ((ChainManager.updateMetadataForTip (demoState 100000) [])[1]?).map
        FileEntry.count = some 1 := by
  obtain ⟨hlen, hcnt, happ, hpres⟩ :=
    ChainManager.updateMetadataForTip_char (demoState 100000) [] (demoBH 100000)
      (demoState_tip 100000)
  have hh : (demoBH 100000).height = 100000 := rfl
  rw [hh] at hcnt happ
  refine ⟨?_, ?_, ?_⟩
  · rw [demoState_byHeight_length]
  · have h0 := happ 0 (Nat.le_refl 0) (by norm_num)
    rw [h0]
    rfl
  · norm_num at hcnt
    obtain ⟨a, ha, hc⟩ := hcnt
    rw [ha, Option.map_some', hc]

/-- C6 amended: after a manifest refresh with a non-nil tip, the entry for
the tip's file has count = (tip.height mod 100000) + 1; entries newly
appended for earlier files carry their correct firstHeight = i·100000 but
count = 0 (not 100000); pre-existing entries other than the tip's are left
unchanged. -/
theorem updateMetadataForTip_counts (st : ChainState) (files : List FileEntry)
    (tip : BlockHeader) (ht : st.tip = some tip) :
    (ChainManager.updateMetadataForTip st files).length
      = max files.length (tip.height / 100000 + 1) ∧
    ((ChainManager.updateMetadataForTip st files)[tip.height / 100000]?).map
        FileEntry.count = some (tip.height % 100000 + 1) ∧
    (∀ i, files.length ≤ i → i < tip.height / 100000 →
      (ChainManager.updateMetadataForTip st files)[i]?
        = some (mkEmptyFileEntry i)) ∧
    (∀ i, i < files.length → i ≠ tip.height / 100000 →
      (ChainManager.updateMetadataForTip st files)[i]? = files[i]?) :=
  ChainManager.updateMetadataForTip_char st files tip ht

/-- Witness for the amended C6 at a concrete input: refreshing an empty
manifest with the tip at height 5 yields one entry with count 6. -/
theorem updateMetadataForTip_counts_witness :
    (demoState 5).tip = some (demoBH 5) ∧
    ((ChainManager.updateMetadataForTip (demoState 5) []).length
        = max ([] : List FileEntry).length ((demoBH 5).height / 100000 + 1) ∧
    ((ChainManager.updateMetadataForTip (demoState 5) [])[(demoBH 5).height / 100000]?).map
        FileEntry.count = some ((demoBH 5).height % 100000 + 1) ∧
    (∀ i, ([] : List FileEntry).length ≤ i → i < (demoBH 5).height / 100000 →
      (ChainManager.updateMetadataForTip (demoState 5) [])[i]?
        = some (mkEmptyFileEntry i)) ∧
    (∀ i, i < ([] : List FileEntry).length → i ≠ (demoBH 5).height / 100000 →
      (ChainManager.updateMetadataForTip (demoState 5) [])[i]?
        = ([] : List FileEntry)[i]?)) :=
  ⟨rfl, updateMetadataForTip_counts (demoState 5) [] (demoBH 5) rfl⟩

/-- C7 (code bug): in the HTTP header-by-height handler, the uint32
subtraction tip.height − 100 wraps around instead of clamping at zero: with
an empty chain (tip height 0) a request for height 0 is classified as
deep-history/long-cacheable, contrary to the claim. -/
theorem HandleGetHeaderByHeight_cache_wraps :
    ChainManager.GetHeight emptyState = 0 ∧
    u32sub 0 100 = 4294967196 ∧
    HandleGetHeaderByHeightLongCache emptyState 0 = true := by decide

set_option maxRecDepth 4000 in
/-- C9 counterexample: an accepted admission that does not move the tip
(claimed height 51 over the height-50 parent, equal cumulative work) leaves
a non-best-chain header in byHash at height 51 < tip.height − 100 = 101 —
no pruning pass runs, so the retention bound does not hold after every
accepted admission. -/
theorem addBlockToChain_no_pruning_cex :
    ((demoState 201).byHash c9X.prevHash).map BlockHeader.height = some 50 ∧
    (ChainManager.addBlockToChain (demoState 201) c9X 51).map
        (fun s => ((s.byHash 999999).map BlockHeader.height,
                   s.byHeight[51]?,
                   s.tip.map BlockHeader.height))
      = some (some 51, some 51, some 201) ∧
    (51 : Nat) + 100 < 201 ∧ (999999 : Hash) ≠ 51 := by decide

/-- C8: every header persisted by writeHeadersToFiles has its raw bytes
written at byte offset (height mod 100000)·80 inside the file with index
height div 100000, for any grouping of the branch across files (heights in
the branch assumed pairwise distinct, record size 80). -/
theorem writeHeadersToFiles_record_layout (fs : FileSystem)
    (headers : List BlockHeader)
    (hlen : ∀ bh ∈ headers, bh.header.bytes.length = 80)
    (hdist : headers.Pairwise (fun a b => a.height ≠ b.height))
    (bh : BlockHeader) (hmem : bh ∈ headers) (j : Nat) (hj : j < 80) :
    ChainManager.writeHeadersToFiles fs headers (bh.height / 100000)
        (bh.height % 100000 * 80 + j)
      = bh.header.bytes[j]? := by
  unfold ChainManager.writeHeadersToFiles
  apply foldl_write_mem
  · intro y hy
    exact hlen y (List.mem_filter.mp hy).1
  · have h1 : (headers.filter
        (fun b => b.height / 100000 == bh.height / 100000)).Pairwise
          (fun a b => a.height ≠ b.height) := hdist.filter _
    refine List.Pairwise.imp_of_mem ?_ h1
    intro a b ha hb hne
    have ha2 : a.height / 100000 = bh.height / 100000 := by
      simpa using (List.mem_filter.mp ha).2
    have hb2 : b.height / 100000 = bh.height / 100000 := by
      simpa using (List.mem_filter.mp hb).2
    intro hmod
    exact hne (by omega)
  · exact List.mem_filter.mpr ⟨hmem, by simp⟩
  · exact hj

/-- Witness for C8 at a concrete input: two records at heights 1 and 2 of
file 0; byte 5 of the height-1 record lands at offset 85 and reads back as
byte 5 of its raw bytes. -/
theorem writeHeadersToFiles_record_layout_witness :
    (∀ bh ∈ [w8A, w8B], bh.header.bytes.length = 80) ∧
    ([w8A, w8B].Pairwise (fun a b => a.height ≠ b.height)) ∧
    w8A ∈ [w8A, w8B] ∧ (5 : Nat) < 80 ∧
    ChainManager.writeHeadersToFiles emptyFS [w8A, w8B] (w8A.height / 100000)
        (w8A.height % 100000 * 80 + 5)
      = w8A.header.bytes[5]? :=
  ⟨by decide, by decide, by decide, by decide,
   writeHeadersToFiles_record_layout emptyFS [w8A, w8B] (by decide) (by decide)
     w8A (by decide) 5 (by decide)⟩

/-- C9 amended: a pruning pass with retention 100 removes exactly the byHash
entries that are not the best-chain member at their height and lie below
max(0, tip.height − 100); it never removes a best-chain member, and every
surviving non-best entry respects the bound. (The bound holds after every
admission that runs the pruning pass — i.e. after every SetChainTip — but
not after side-entry admissions, which do not prune.) -/
theorem pruneOrphans_retention_100 (st : ChainState) (t : BlockHeader)
    (ht : st.tip = some t) :
    (∀ h hdr, st.byHash h = some hdr →
      ((ChainManager.pruneOrphans st).byHash h = none ↔
        (st.byHeight[hdr.height]? ≠ some h ∧ hdr.height + 100 < t.height))) ∧
    (∀ h hdr, (ChainManager.pruneOrphans st).byHash h = some hdr →
      st.byHash h = some hdr ∧
      (st.byHeight[hdr.height]? = some h ∨ t.height - 100 ≤ hdr.height)) := by
  constructor
  · intro h hdr hb
    rw [ChainManager.pruneOrphans_byHash_some st t ht h hdr hb]
    by_cases hm : st.byHeight[hdr.height]? = some h
    · simp [hm]
    · by_cases hold : hdr.height + 100 < t.height
      · simp [hm, hold]
      · simp [hm, hold]
  · intro h hdr hs
    cases hb : st.byHash h with
    | none =>
      rw [ChainManager.pruneOrphans_byHash_none st t ht h hb] at hs
      exact absurd hs (by simp)
    | some hdr0 =>
      rw [ChainManager.pruneOrphans_byHash_some st t ht h hdr0 hb] at hs
      by_cases hm : st.byHeight[hdr0.height]? = some h
      · rw [if_pos hm] at hs
        cases Option.some.inj hs
        exact ⟨rfl, Or.inl hm⟩
      · rw [if_neg hm] at hs
        by_cases hold : hdr0.height + 100 < t.height
        · rw [if_pos hold] at hs
          exact absurd hs (by simp)
        · rw [if_neg hold] at hs
          cases Option.some.inj hs
          exact ⟨rfl, Or.inr (by omega)⟩

/-- Witness for the amended C9 at a concrete input: on a chain with tip at
height 201 carrying a stale height-5 side header, the characterization
applies (and in particular forces that header's removal). -/
theorem pruneOrphans_retention_100_witness :
    c9WState.tip = some (demoBH 201) ∧
    ((∀ h hdr, c9WState.byHash h = some hdr →
      ((ChainManager.pruneOrphans c9WState).byHash h = none ↔
        (c9WState.byHeight[hdr.height]? ≠ some h ∧ hdr.height + 100 < (demoBH 201).height))) ∧
    (∀ h hdr, (ChainManager.pruneOrphans c9WState).byHash h = some hdr →
      c9WState.byHash h = some hdr ∧
      (c9WState.byHeight[hdr.height]? = some h ∨ (demoBH 201).height - 100 ≤ hdr.height))) :=
  ⟨by decide, pruneOrphans_retention_100 c9WState (demoBH 201) (by decide)⟩

/-- Witness for C10 at a concrete input: adding a height-5 header with zero
chain work to a chain whose tip is at height 1 replaces the tip (heights
only) and pads heights 2..4 with zero hashes. -/
theorem StoreAddHeader_height_based_tip_witness :
    (demoState 1).byHash c10BH.header.hash = none ∧
    (∃ st', HeaderStore.AddHeader (demoState 1) c10BH = some st' ∧
      st'.tip = (match (demoState 1).tip with
                 | none => some c10BH
                 | some t => if t.height < c10BH.height then some c10BH else some t) ∧
      st'.byHeight[c10BH.height]? = some c10BH.header.hash ∧
      (∀ i, (demoState 1).byHeight.length ≤ i → i < c10BH.height →
        st'.byHeight[i]? = some zeroHash) ∧
      st'.byHash c10BH.header.hash = some c10BH) :=
  ⟨by decide, StoreAddHeader_height_based_tip (demoState 1) c10BH (by decide)⟩

end Chaintracks
